import Mathlib

/-!
Verification of the free-claude-code gateway against its specification.

This file gives a shallow embedding, in Lean 4, of the parts of the Python
source that the checked properties talk about:

 - src/providers/model_utils.py (model-name normalization),
 - src/api/models/anthropic.py (the MessagesRequest model validator),
 - src/providers/common/error_mapping.py (user-facing error messages),
 - src/providers/common/sse_builder.py (ContentBlockManager: streaming tool
   names and Task-argument buffering, with a small JSON reader standing in
   for json.loads),
 - src/providers/common/heuristic_tool_parser.py (the textual tool-call
   parser, including its control-token stripping and its regex scanners,
   here written out as deterministic character scanners),
 - src/messaging/commands.py together with src/messaging/handler.py (the
   global /clear path and the read-only tree_queue property).

Python strings are modelled as Lean String or as List Char; Python dicts
(which preserve insertion order) are modelled as association lists whose
update replaces in place or appends at the end, exactly as CPython does.
Python truthiness of a string is modelled as the string being nonempty.
-/

namespace FreeClaudeCode

abbrev Chars := List Char

/-- Whitespace characters recognised by the ASCII fragment of the Python
str.strip / regex \s family: space, tab, newline, carriage return,
vertical tab and form feed. The Python versions also accept some further
Unicode space characters, which none of the checked inputs use. -/
def pyWs (c : Char) : Bool :=
  c = ' ' || c = '\t' || c = '\n' || c = '\r' || c = '\x0b' || c = '\x0c'

/-- Model of Python str.strip(): drop leading and trailing whitespace. -/
def pyStrip (l : Chars) : Chars :=
  ((l.dropWhile pyWs).reverse.dropWhile pyWs).reverse

/-- Model of Python str.strip() on String values. -/
def pyStripStr (s : String) : String :=
  String.mk (pyStrip s.data)

/-- Model of the Python substring test needle in hay (str.__contains__). -/
def containsList (needle : Chars) : Chars → Bool
  | [] => needle.isEmpty
  | c :: rest => needle.isPrefixOf (c :: rest) || containsList needle rest

/-- Model of Python str.find for a needle list: index of the leftmost
occurrence, or none. -/
def findSub (needle : Chars) : Chars → Option Nat
  | [] => if needle.isEmpty then some 0 else none
  | c :: rest =>
    if needle.isPrefixOf (c :: rest) then some 0
    else (findSub needle rest).map (· + 1)

/-- Model of Python str.rfind for a needle list: index of the rightmost
occurrence, or none. -/
def rfindSub (needle : Chars) : Chars → Option Nat
  | [] => if needle.isEmpty then some 0 else none
  | c :: rest =>
    match rfindSub needle rest with
    | some i => some (i + 1)
    | none => if needle.isPrefixOf (c :: rest) then some 0 else none

/-- Ordered-dict update: replace the value of an existing key in place, or
append the new binding at the end, as CPython dict assignment does. -/
def setAssoc {σ α : Type} [DecidableEq σ] (l : List (σ × α)) (k : σ) (v : α) :
    List (σ × α) :=
  match l with
  | [] => [(k, v)]
  | (k', v') :: rest => if k' = k then (k, v) :: rest else (k', v') :: setAssoc rest k v

/-- Ordered-dict lookup (dict.get): value of the key, or none. -/
def getAssoc {σ α : Type} [DecidableEq σ] (l : List (σ × α)) (k : σ) : Option α :=
  match l with
  | [] => none
  | (k', v') :: rest => if k' = k then some v' else getAssoc rest k

/-- Model of Python s.startswith(pre). -/
def pyStartsWith (s pre : String) : Bool :=
  pre.data.isPrefixOf s.data

/-!
Embedding of src/providers/model_utils.py.

The Settings object carries the four model-name configuration fields;
Python treats None and the empty string alike there (falsy), so an unset
field is modelled as the empty string.
-/

structure Settings where
  haiku_model : String
  sonnet_model : String
  opus_model : String
  model_name : String
deriving DecidableEq

/-- Embedding of strip_provider_prefixes (model_utils.py lines 13 to 26):
strip the first of the prefixes anthropic/, openai/, gemini/ that matches. -/
def strip_provider_prefixes (model : String) : String :=
  if ("anthropic/".data).isPrefixOf model.data then String.mk (model.data.drop 10)
  else if ("openai/".data).isPrefixOf model.data then String.mk (model.data.drop 7)
  else if ("gemini/".data).isPrefixOf model.data then String.mk (model.data.drop 7)
  else model

/-- Embedding of is_claude_model (model_utils.py lines 29 to 40): the
lower-cased name contains one of haiku, sonnet, opus, claude. -/
def is_claude_model (model : String) : Bool :=
  let ml := model.data.map Char.toLower
  containsList ("haiku".data) ml || containsList ("sonnet".data) ml ||
    containsList ("opus".data) ml || containsList ("claude".data) ml

/-- Embedding of normalize_model_name (model_utils.py lines 43 to 81).
Note that for a non-Claude name the function returns the original model
argument, not the prefix-stripped clean value. -/
def normalize_model_name (model : String) (settings : Settings) : String :=
  let clean := strip_provider_prefixes model
  if is_claude_model clean then
    let cl := clean.data.map Char.toLower
    if containsList ("haiku".data) cl && !settings.haiku_model.isEmpty then
      settings.haiku_model
    else if containsList ("sonnet".data) cl && !settings.sonnet_model.isEmpty then
      settings.sonnet_model
    else if containsList ("opus".data) cl && !settings.opus_model.isEmpty then
      settings.opus_model
    else settings.model_name
  else model

/-!
Embedding of the MessagesRequest.map_model validator
(src/api/models/anthropic.py lines 108 to 126). Only the two fields the
validator touches are modelled. The validator stores the incoming model
as original_model when that field is unset, then replaces model by its
normalization (the guard normalized != self.model only avoids a no-op
assignment, so the net effect is unconditional).
-/

structure MessagesRequestModel where
  model : String
  original_model : Option String
deriving DecidableEq

def map_model (settings : Settings) (r : MessagesRequestModel) : MessagesRequestModel :=
  let om := match r.original_model with
    | none => some r.model
    | some o => some o
  { model := normalize_model_name r.model settings, original_model := om }

/-!
Embedding of get_user_facing_error_message
(src/providers/common/error_mapping.py lines 17 to 53).

An exception is modelled by its string representation together with the
first isinstance branch of the function that it would satisfy; the kind
other means it matches none of the recognised types (the taxonomy classes
live in providers/exceptions.py and the openai package, outside the core
sources; only which branch fires matters here). The read_timeout_s float
is modelled as an optional Nat, formatted with toString where Python uses
the :g float format.
-/

inductive ExcKind where
  | httpxReadTimeout
  | httpxConnectTimeout
  | timeoutError
  | rateLimit
  | authentication
  | invalidRequest
  | overloaded
  | apiError (statusCode : Nat)
  | providerError
  | other
deriving DecidableEq

structure Exc where
  kind : ExcKind
  strRep : String
deriving DecidableEq

def getUserFacingErrorMessage (e : Exc) (readTimeoutS : Option Nat) : String :=
  if pyStripStr e.strRep ≠ "" then pyStripStr e.strRep
  else
    match e.kind with
    | ExcKind.httpxReadTimeout =>
      match readTimeoutS with
      | some t => "Provider request timed out after " ++ toString t ++ "s."
      | none => "Provider request timed out."
    | ExcKind.httpxConnectTimeout => "Could not connect to provider."
    | ExcKind.timeoutError =>
      match readTimeoutS with
      | some t => "Provider request timed out after " ++ toString t ++ "s."
      | none => "Request timed out."
    | ExcKind.rateLimit => "Provider rate limit reached. Please retry shortly."
    | ExcKind.authentication => "Provider authentication failed. Check API key."
    | ExcKind.invalidRequest => "Invalid request sent to provider."
    | ExcKind.overloaded => "Provider is currently overloaded. Please retry."
    | ExcKind.apiError sc =>
      if sc = 502 ∨ sc = 503 ∨ sc = 504 then
        "Provider is temporarily unavailable. Please retry."
      else "Provider API request failed."
    | ExcKind.providerError => "Provider request failed."
    | ExcKind.other => "Provider request failed unexpectedly."

/-!
A small JSON reader standing in for Python json.loads, used by the
Task-argument buffering of src/providers/common/sse_builder.py. It covers
objects, arrays, strings with backslash escapes, integer numbers, true,
false and null; floats and unicode escapes are not modelled (none of the
checked inputs use them). Duplicate object keys keep the last value at
the position of the first, as CPython dicts do.
-/

inductive Json where
  | null
  | bool (b : Bool)
  | num (n : Int)
  | str (s : String)
  | arr (xs : List Json)
  | obj (fields : List (String × Json))

def jsonWs (c : Char) : Bool :=
  c = ' ' || c = '\t' || c = '\n' || c = '\r'

def skipJsonWs (l : Chars) : Chars := l.dropWhile jsonWs

/-- Read the characters of a JSON string body after the opening quote.
Returns the decoded characters and the rest after the closing quote. -/
def jsonStringBody : Nat → Chars → Option (Chars × Chars)
  | 0, _ => none
  | _ + 1, [] => none
  | fuel + 1, c :: rest =>
    if c = '"' then some ([], rest)
    else if c = '\\' then
      match rest with
      | [] => none
      | e :: rest' =>
        let d := if e = 'n' then '\n' else if e = 't' then '\t' else if e = 'r' then '\r' else e
        (jsonStringBody fuel rest').map (fun p => (d :: p.1, p.2))
    else (jsonStringBody fuel rest).map (fun p => (c :: p.1, p.2))

def jsonDigits (l : Chars) : Chars × Chars :=
  (l.takeWhile Char.isDigit, l.dropWhile Char.isDigit)

def digitsToNat (l : Chars) : Nat :=
  l.foldl (fun acc c => acc * 10 + (c.toNat - 48)) 0

mutual

def jsonValue : Nat → Chars → Option (Json × Chars)
  | 0, _ => none
  | fuel + 1, l =>
    let l := skipJsonWs l
    match l with
    | [] => none
    | c :: rest =>
      if c = 'n' then
        if ("ull".data).isPrefixOf rest then some (Json.null, rest.drop 3) else none
      else if c = 't' then
        if ("rue".data).isPrefixOf rest then some (Json.bool true, rest.drop 3) else none
      else if c = 'f' then
        if ("alse".data).isPrefixOf rest then some (Json.bool false, rest.drop 4) else none
      else if c = '"' then
        (jsonStringBody (rest.length + 1) rest).map (fun p => (Json.str (String.mk p.1), p.2))
      else if c = '-' then
        match jsonDigits rest with
        | ([], _) => none
        | (ds, rest') => some (Json.num (-(digitsToNat ds : Int)), rest')
      else if c.isDigit then
        match jsonDigits (c :: rest) with
        | (ds, rest') => some (Json.num (digitsToNat ds : Int), rest')
      else if c = '[' then
        match skipJsonWs rest with
        | ']' :: rest' => some (Json.arr [], rest')
        | l' => (jsonArrayItems fuel l').map (fun p => (Json.arr p.1, p.2))
      else if c = '\x7b' then
        match skipJsonWs rest with
        | '\x7d' :: rest' => some (Json.obj [], rest')
        | l' =>
          (jsonObjectItems fuel l').map
            (fun p => (Json.obj (p.1.foldl (fun acc kv => setAssoc acc kv.1 kv.2) []), p.2))
      else none

def jsonArrayItems : Nat → Chars → Option (List Json × Chars)
  | 0, _ => none
  | fuel + 1, l =>
    match jsonValue fuel l with
    | none => none
    | some (v, rest) =>
      match skipJsonWs rest with
      | ',' :: rest' =>
        (jsonArrayItems fuel rest').map (fun p => (v :: p.1, p.2))
      | ']' :: rest' => some ([v], rest')
      | _ => none

def jsonObjectItems : Nat → Chars → Option (List (String × Json) × Chars)
  | 0, _ => none
  | fuel + 1, l =>
    match skipJsonWs l with
    | '"' :: rest =>
      match jsonStringBody (rest.length + 1) rest with
      | none => none
      | some (k, rest1) =>
        match skipJsonWs rest1 with
        | ':' :: rest2 =>
          match jsonValue fuel rest2 with
          | none => none
          | some (v, rest3) =>
            match skipJsonWs rest3 with
            | ',' :: rest4 =>
              (jsonObjectItems fuel rest4).map
                (fun p => ((String.mk k, v) :: p.1, p.2))
            | '\x7d' :: rest4 => some ([(String.mk k, v)], rest4)
            | _ => none
        | _ => none
    | _ => none

end

/-- Model of json.loads: a complete JSON value with optional surrounding
whitespace; anything else fails. -/
def jsonLoads (s : String) : Option Json :=
  match jsonValue (2 * s.data.length + 2) s.data with
  | some (v, rest) => if skipJsonWs rest = [] then some v else none
  | none => none

/-!
Embedding of the streaming tool-call bookkeeping of
src/providers/common/sse_builder.py: ToolCallState, the tool_states dict
of ContentBlockManager, register_tool_name (lines 64 to 81) and
buffer_task_args (lines 82 to 103).
-/

structure ToolCallState where
  block_index : Int
  tool_id : String
  name : String
  contents : List String
  started : Bool
  task_arg_buffer : String
  task_args_emitted : Bool

structure ContentBlockManager where
  next_index : Nat
  thinking_index : Int
  text_index : Int
  thinking_started : Bool
  text_started : Bool
  tool_states : List (Nat × ToolCallState)

def emptyManager : ContentBlockManager :=
  { next_index := 0, thinking_index := -1, text_index := -1,
    thinking_started := false, text_started := false, tool_states := [] }

def freshToolCallState (name : String) : ToolCallState :=
  { block_index := -1, tool_id := "", name := name, contents := [],
    started := false, task_arg_buffer := "", task_args_emitted := false }

/-- Embedding of ContentBlockManager.register_tool_name. -/
def register_tool_name (m : ContentBlockManager) (index : Nat) (name : String) :
    ContentBlockManager :=
  match getAssoc m.tool_states index with
  | none =>
    { m with tool_states := setAssoc m.tool_states index (freshToolCallState name) }
  | some state =>
    let prev := state.name
    let newName :=
      if prev = "" || pyStartsWith name prev then name
      else if !(pyStartsWith prev name) then prev ++ name
      else prev
    { m with tool_states := setAssoc m.tool_states index { state with name := newName } }

/-- Result of one buffer_task_args call: the Python function returns None
(pending), returns the parsed and patched dict (emitted), or raises an
AttributeError when json.loads yields a non-dict (raised; the call to
args_json.get is outside the try block). -/
inductive TaskArgsResult where
  | pending
  | emitted (fields : List (String × Json))
  | raised

/-- Embedding of the run_in_background patch inside buffer_task_args:
if args_json.get("run_in_background") is not False, set it to False. -/
def patchRunInBackground (fields : List (String × Json)) : List (String × Json) :=
  match getAssoc fields "run_in_background" with
  | some (Json.bool false) => fields
  | _ => setAssoc fields "run_in_background" (Json.bool false)

/-- Embedding of ContentBlockManager.buffer_task_args. -/
def buffer_task_args (m : ContentBlockManager) (index : Nat) (args : String) :
    ContentBlockManager × TaskArgsResult :=
  match getAssoc m.tool_states index with
  | none => (m, TaskArgsResult.pending)
  | some state =>
    if state.task_args_emitted then (m, TaskArgsResult.pending)
    else
      let buf := state.task_arg_buffer ++ args
      match jsonLoads buf with
      | none =>
        ({ m with tool_states :=
            setAssoc m.tool_states index { state with task_arg_buffer := buf } },
         TaskArgsResult.pending)
      | some (Json.obj fields) =>
        ({ m with tool_states :=
            setAssoc m.tool_states index { state with task_args_emitted := true, task_arg_buffer := "" } },
         TaskArgsResult.emitted (patchRunInBackground fields))
      | some _ =>
        ({ m with tool_states :=
            setAssoc m.tool_states index { state with task_arg_buffer := buf } },
         TaskArgsResult.raised)

/-- Feed a list of argument fragments through buffer_task_args in order,
collecting the per-call results. -/
def bufferTaskArgsRun (m : ContentBlockManager) (index : Nat) :
    List String → ContentBlockManager × List TaskArgsResult
  | [] => (m, [])
  | a :: rest =>
    let r := buffer_task_args m index a
    let rr := bufferTaskArgsRun r.1 index rest
    (rr.1, r.2 :: rr.2)

/-!
Embedding of src/providers/common/heuristic_tool_parser.py.

The three regexes of the source are specialised here to deterministic
character scanners (each pattern is backtracking-free on its character
classes, so the scanners compute exactly the regex matches):

 - the control-token pattern matches a literal less-than sign and pipe,
   then one to eighty characters that are neither pipe nor greater-than,
   then pipe and greater-than;
 - the function-start pattern matches the bullet character, any run of
   whitespace, the literal function-equals opener, a nonempty run of
   characters other than greater-than as the name, then greater-than;
 - the parameter pattern matches the parameter-equals opener, a nonempty
   run of characters other than greater-than as the key, greater-than,
   then a lazy value terminated by the closing parameter tag or by the
   end-of-input anchor (which in Python also matches just before a final
   newline).

The nondeterministic uuid4().hex of the source is modelled by a supply of
hex strings carried in the parser state and consumed one per tool id.
-/

/-- Scan the body of a control token after the first body character:
up to a given number of further body characters (neither pipe nor
greater-than), then the closing pipe and greater-than. Returns the rest
after the token. -/
def ctScanBody : Nat → Chars → Option Chars
  | _, '|' :: '>' :: rest => some rest
  | 0, _ => none
  | _ + 1, [] => none
  | fuel + 1, c :: rest => if c = '|' || c = '>' then none else ctScanBody fuel rest

/-- Try to match the tail of a control token directly after the opening
less-than and pipe: at least one body character, at most eighty. -/
def ctMatch : Chars → Option Chars
  | [] => none
  | c :: rest => if c = '|' || c = '>' then none else ctScanBody 79 rest

/-- Left-to-right scan removing every complete control token, as
re.sub with an empty replacement does; fuel is consumed one character
per step, so the length of the input is always enough. At a less-than
sign followed by a pipe the scanner tries the token tail (rest.tail is
the text after the two opener characters); on failure the character is
kept and scanning resumes at the next position. -/
def stripCTAux : Nat → Chars → Chars
  | 0, l => l
  | fuel + 1, l =>
    match l with
    | [] => []
    | c :: rest =>
      if c = '<' ∧ rest.head? = some '|' then
        match ctMatch rest.tail with
        | some rest' => stripCTAux fuel rest'
        | none => c :: stripCTAux fuel rest
      else c :: stripCTAux fuel rest

/-- Embedding of HeuristicToolParser._strip_control_tokens. -/
def stripControlTokens (l : Chars) : Chars := stripCTAux l.length l

/-- Embedding of _split_incomplete_control_token_tail (lines 49 to 65):
if the buffer ends in an incomplete control token, return the prefix
before it and keep the tail; otherwise return an empty prefix and the
buffer unchanged. -/
def splitIncompleteTail (buf : Chars) : Chars × Chars :=
  match rfindSub ('<' :: '|' :: []) buf with
  | none => ([], buf)
  | some start =>
    match findSub ('|' :: '>' :: []) (buf.drop start) with
    | some _ => ([], buf)
    | none => (buf.take start, buf.drop start)

def functionOpener : Chars := "<function=".data

/-- Match the function-start pattern at one position. Returns the raw
captured name and the rest after the closing greater-than. -/
def funcTagAt : Chars → Option (Chars × Chars)
  | '●' :: rest =>
    let r1 := rest.dropWhile pyWs
    if functionOpener.isPrefixOf r1 then
      let r2 := r1.drop 10
      let name := r2.takeWhile (· ≠ '>')
      if name = [] then none
      else
        match r2.drop name.length with
        | '>' :: r3 => some (name, r3)
        | _ => none
    else none
  | _ => none

/-- Leftmost search for the function-start pattern (re.search). Only the
captured name and the rest after the match end are used by feed, which
discards everything before the match. -/
def funcSearch : Chars → Option (Chars × Chars)
  | [] => none
  | c :: rest =>
    match funcTagAt (c :: rest) with
    | some r => some r
    | none => funcSearch rest

def parameterOpener : Chars := "<parameter=".data
def parameterCloser : Chars := "</parameter>".data

/-- Match the parameter pattern at one position: key, value, whether the
match ended with the closing tag (the source only consumes a match when
the closing tag is inside it), and the rest after the match end. An
unterminated value runs to the end of input, or to just before a final
newline, matching the Python end anchor. -/
def paramTagAt (l : Chars) : Option (Chars × Chars × Bool × Chars) :=
  if parameterOpener.isPrefixOf l then
    let r2 := l.drop 11
    let key := r2.takeWhile (· ≠ '>')
    if key = [] then none
    else
      match r2.drop key.length with
      | '>' :: r3 =>
        (match findSub parameterCloser r3 with
         | some d => some (key, r3.take d, true, r3.drop (d + 12))
         | none =>
           let v := if r3.getLast? = some '\n' then r3.dropLast else r3
           some (key, v, false, []))
      | _ => none
  else none

/-- Leftmost search for the parameter pattern, also returning the text
before the match start (which feed preserves as passthrough). -/
def paramSearch : Chars → Option (Chars × (Chars × Chars × Bool × Chars))
  | [] => none
  | c :: rest =>
    match paramTagAt (c :: rest) with
    | some m => some ([], m)
    | none => (paramSearch rest).map (fun p => (c :: p.1, p.2))

/-- The inner while loop of the PARSING_PARAMETERS branch: repeatedly
consume complete parameter matches, storing stripped keys and values and
passing pre-match text through. Returns the remaining buffer, the updated
parameters and the extended output. -/
def paramConsume : Nat → Chars → List (Chars × Chars) → Chars →
    Chars × List (Chars × Chars) × Chars
  | 0, b, p, o => (b, p, o)
  | fuel + 1, b, p, o =>
    match paramSearch b with
    | some (pre, (key, v, true, rest)) =>
      paramConsume fuel rest (setAssoc p (pyStrip key) (pyStrip v)) (o ++ pre)
    | _ => (b, p, o)

inductive PState where
  | text
  | matchingFunction
  | parsingParameters
deriving DecidableEq

structure ToolUse where
  id : Chars
  name : Chars
  input : List (Chars × Chars)
deriving DecidableEq

structure HTPState where
  state : PState
  buffer : Chars
  currentToolId : Chars
  currentFunctionName : Chars
  currentParameters : List (Chars × Chars)
  uuidSupply : List Chars
deriving DecidableEq

/-- A fresh parser (HeuristicToolParser.__init__); the id and name fields
are None in Python until first set, modelled as empty lists. -/
def HTPState.init (supply : List Chars) : HTPState :=
  { state := PState.text, buffer := [], currentToolId := [],
    currentFunctionName := [], currentParameters := [], uuidSupply := supply }

def toolIdBase : Chars := "toolu_heuristic_".data

/-- The TEXT branch of the feed loop. Left means break out of the loop
with the given state and output; Right means fall through to the
MATCHING_FUNCTION branch. -/
def stageText (st : HTPState) (out : Chars) :
    Sum (HTPState × Chars) (HTPState × Chars) :=
  if st.state = PState.text then
    match findSub ('●' :: []) st.buffer with
    | some idx =>
      Sum.inr ({ st with state := PState.matchingFunction, buffer := st.buffer.drop idx },
        out ++ st.buffer.take idx)
    | none =>
      let p := splitIncompleteTail st.buffer
      if p.1 ≠ [] then Sum.inl ({ st with buffer := p.2 }, out ++ p.1)
      else Sum.inl ({ st with buffer := [] }, out ++ p.2)
  else Sum.inr (st, out)

inductive MatchingRes where
  | brk (st : HTPState) (out : Chars)
  | loopText (st : HTPState) (out : Chars)
  | toParsing (st : HTPState) (out : Chars)

/-- The state entered when a function opener matches: the buffer keeps
only the text after the tag, the stripped group names the tool, and a
fresh tool id is drawn from the uuid supply. -/
def funcMatchState (st : HTPState) (g rest : Chars) : HTPState :=
  { st with
    state := PState.parsingParameters, buffer := rest,
    currentFunctionName := pyStrip g,
    currentToolId := toolIdBase ++ (st.uuidSupply.headD []).take 8,
    uuidSupply := st.uuidSupply.tail,
    currentParameters := [] }

/-- The MATCHING_FUNCTION branch of the feed loop. On a match the text
before the match start is discarded together with the tag (the source
assigns buffer[match.end():]); without a match, a buffer longer than 100
characters emits its first character and reverts to TEXT (loopText, the
loop runs again), otherwise the loop breaks. -/
def stageMatching (st : HTPState) (out : Chars) : MatchingRes :=
  if st.state = PState.matchingFunction then
    match funcSearch st.buffer with
    | some (g, rest) => MatchingRes.toParsing (funcMatchState st g rest) out
    | none =>
      if st.buffer.length > 100 then
        MatchingRes.loopText { st with state := PState.text, buffer := st.buffer.drop 1 }
          (out ++ st.buffer.take 1)
      else MatchingRes.brk st out
  else MatchingRes.toParsing st out

inductive ParsingRes where
  | brk (st : HTPState) (out : Chars)
  | fin (st : HTPState) (out : Chars) (tool : ToolUse)

/-- The PARSING_PARAMETERS branch of the feed loop: consume complete
parameters, then decide completion. A bullet in the buffer finishes the
tool call (text before it passes through); otherwise a nonempty buffer
whose stripped form does not start with a less-than sign and which does
not contain a parameter opener is passed through and finishes the call;
otherwise the loop breaks waiting for more data. -/
def stageParsing (st : HTPState) (out : Chars) : ParsingRes :=
  let r := paramConsume st.buffer.length st.buffer st.currentParameters out
  let b1 := r.1
  let params := r.2.1
  let out1 := r.2.2
  match findSub ('●' :: []) b1 with
  | some idx =>
    ParsingRes.fin
      { st with state := PState.text, buffer := b1.drop idx, currentParameters := params }
      (out1 ++ b1.take idx)
      { id := st.currentToolId, name := st.currentFunctionName, input := params }
  | none =>
    if b1 ≠ [] ∧ (pyStrip b1).take 1 ≠ ('<' :: []) then
      if containsList parameterOpener b1 then
        ParsingRes.brk { st with buffer := b1, currentParameters := params } out1
      else
        ParsingRes.fin
          { st with state := PState.text, buffer := [], currentParameters := params }
          (out1 ++ b1)
          { id := st.currentToolId, name := st.currentFunctionName, input := params }
    else ParsingRes.brk { st with buffer := b1, currentParameters := params } out1

/-- The while True loop of feed. One fuel unit per loop iteration; the
loop continues only on the overflow revert and after a finished tool
call, and every two successive continuations consume buffer characters,
so the fuel supplied by feed below is always sufficient. -/
def feedLoop : Nat → HTPState → Chars → List ToolUse →
    HTPState × Chars × List ToolUse
  | 0, st, out, tools => (st, out, tools)
  | fuel + 1, st, out, tools =>
    match stageText st out with
    | Sum.inl (st1, out1) => (st1, out1, tools)
    | Sum.inr (st1, out1) =>
      match stageMatching st1 out1 with
      | MatchingRes.brk st2 out2 => (st2, out2, tools)
      | MatchingRes.loopText st2 out2 => feedLoop fuel st2 out2 tools
      | MatchingRes.toParsing st2 out2 =>
        match stageParsing st2 out2 with
        | ParsingRes.brk st3 out3 => (st3, out3, tools)
        | ParsingRes.fin st3 out3 tool => feedLoop fuel st3 out3 (tools ++ [tool])

/-- Embedding of HeuristicToolParser.feed: append the chunk, strip
complete control tokens, then run the loop. Returns the new state, the
joined passthrough text and the detected tools of this call. -/
def feed (st : HTPState) (text : Chars) : HTPState × Chars × List ToolUse :=
  let buf := stripControlTokens (st.buffer ++ text)
  feedLoop (2 * buf.length + 4) { st with buffer := buf } [] []

/-- Feed a list of chunks in order, collecting each call's passthrough
text and detected tools. -/
def feedMany (st : HTPState) : List Chars → HTPState × List (Chars × List ToolUse)
  | [] => (st, [])
  | c :: rest =>
    let r := feed st c
    let rr := feedMany r.1 rest
    (rr.1, (r.2.1, r.2.2) :: rr.2)

/-!
Embedding of the standalone (non-reply) /clear path of
handle_clear_command (src/messaging/commands.py lines 240 to 281),
together with the attribute that its last statement assigns.

ClaudeMessageHandler declares tree_queue as a property with a getter only
(src/messaging/handler.py lines 155 to 158) and provides
replace_tree_queue (lines 160 to 164) as the explicit mutation API. In
Python, assigning to a property that defines no setter raises
AttributeError, which is what the final statement
handler.tree_queue = TreeQueueManager(...) of the global /clear path
does; the statement sits outside every try block of the function. The
session store operations (clear_all and the message-id log) live in
src/messaging/session.py, which is not among the available sources;
following the spec, clear_all truncates the persistent state, and it is
called inside a try/except before the failing assignment.
-/

inductive PyExc where
  | attributeError
deriving DecidableEq

/-- The effects of the global /clear path, in program order. -/
structure GlobalClearState where
  tasksStopped : Bool
  messagesDeleted : Bool
  storeCleared : Bool
  treeQueueReplaced : Bool
deriving DecidableEq

/-- Whether the tree_queue property of ClaudeMessageHandler defines a
setter: handler.py lines 155 to 158 declare only a getter. -/
def treeQueuePropertyHasSetter : Bool := false

/-- Model of the Python statement handler.tree_queue = TreeQueueManager(...):
assignment through a property succeeds only when the property has a
setter; otherwise it raises AttributeError and the handler keeps its old
manager. -/
def assignTreeQueueAttr (s : GlobalClearState) : GlobalClearState × Option PyExc :=
  if treeQueuePropertyHasSetter then
    ({ s with treeQueueReplaced := true }, none)
  else (s, some PyExc.attributeError)

/-- The global /clear path of handle_clear_command: stop all tasks,
best-effort delete the recorded chat messages, clear the persistent
store (inside try/except), then assign a fresh TreeQueueManager to the
tree_queue attribute. Returns the effects reached and the exception the
command raises, if any. -/
def handleClearGlobal : GlobalClearState × Option PyExc :=
  let s0 : GlobalClearState :=
    { tasksStopped := false, messagesDeleted := false, storeCleared := false,
      treeQueueReplaced := false }
  let s1 := { s0 with tasksStopped := true }
  let s2 := { s1 with messagesDeleted := true }
  let s3 := { s2 with storeCleared := true }
  assignTreeQueueAttr s3

/-!
Helper definitions used by the theorem statements below.
-/

/-- The name stored for a streaming tool slot, if the slot exists. -/
def storedToolName (m : ContentBlockManager) (index : Nat) : Option String :=
  (getAssoc m.tool_states index).map (fun s => s.name)

/-- Apply register_tool_name for each name in order, starting from an
empty manager. -/
def registerMany (index : Nat) (names : List String) : ContentBlockManager :=
  names.foldl (fun m n => register_tool_name m index n) emptyManager

/-- One fragment step is concatenation-faithful when the accumulated name
or the fragment is empty, or neither is a prefix of the other (otherwise
register_tool_name treats the fragment as a resend of the full name). -/
def fragStepOk (prev f : String) : Bool :=
  prev = "" || f = "" || (!(pyStartsWith f prev) && !(pyStartsWith prev f))

/-- Every step of a fragment sequence is concatenation-faithful against
the name accumulated so far. -/
def fragChainOk : String → List String → Bool
  | _, [] => true
  | acc, f :: fs => fragStepOk acc f && fragChainOk (acc ++ f) fs

def strConcat : List String → String
  | [] => ""
  | s :: rest => s ++ strConcat rest

/-- Lowercase hexadecimal digits, the alphabet of uuid4().hex. -/
def isLowerHexDigit (c : Char) : Bool :=
  c.isDigit || ('a' ≤ c && c ≤ 'f')

theorem getAssoc_setAssoc_self {σ α : Type} [DecidableEq σ]
    (l : List (σ × α)) (k : σ) (v : α) : getAssoc (setAssoc l k v) k = some v := by
  induction l with
  | nil => simp [setAssoc, getAssoc]
  | cons hd tl ih =>
    by_cases h : hd.1 = k
    · simp [setAssoc, getAssoc, h]
    · cases hd
      simp_all [setAssoc, getAssoc, h]

theorem normalize_of_not_claude (m : String) (s : Settings)
    (h : is_claude_model (strip_provider_prefixes m) = false) :
    normalize_model_name m s = m := by
  unfold normalize_model_name
  simp [h]

theorem normalize_mem_targets (m : String) (s : Settings) :
    normalize_model_name m s = m ∨ normalize_model_name m s = s.haiku_model ∨
      normalize_model_name m s = s.sonnet_model ∨
      normalize_model_name m s = s.opus_model ∨
      normalize_model_name m s = s.model_name := by
  by_cases hc : is_claude_model (strip_provider_prefixes m) = true
  · simp only [normalize_model_name, hc, if_true]
    split
    · exact Or.inr (Or.inl rfl)
    · split
      · exact Or.inr (Or.inr (Or.inl rfl))
      · split
        · exact Or.inr (Or.inr (Or.inr (Or.inl rfl)))
        · exact Or.inr (Or.inr (Or.inr (Or.inr rfl)))
  · exact Or.inl (normalize_of_not_claude m s (by simpa using hc))

/-!
Claim C1.
-/

/-- C1: with settings haiku_model H, sonnet_model S, opus_model O,
model_name D, normalize_model_name maps anthropic/claude-3-haiku to H,
claude-3-sonnet to S, claude-3-opus to O, claude-2.1 to D and gpt-4 to
itself; and the MessagesRequest validator stores the pre-normalization
model string as original_model while replacing model by its
normalization. -/
theorem c1_model_mapping :
    normalize_model_name "anthropic/claude-3-haiku" ⟨"H", "S", "O", "D"⟩ = "H" ∧
    normalize_model_name "claude-3-sonnet" ⟨"H", "S", "O", "D"⟩ = "S" ∧
    normalize_model_name "claude-3-opus" ⟨"H", "S", "O", "D"⟩ = "O" ∧
    normalize_model_name "claude-2.1" ⟨"H", "S", "O", "D"⟩ = "D" ∧
    normalize_model_name "gpt-4" ⟨"H", "S", "O", "D"⟩ = "gpt-4" ∧
    ∀ m : String,
      (map_model ⟨"H", "S", "O", "D"⟩ { model := m, original_model := none }).original_model
        = some m ∧
      (map_model ⟨"H", "S", "O", "D"⟩ { model := m, original_model := none }).model
        = normalize_model_name m ⟨"H", "S", "O", "D"⟩ :=
  ⟨by decide, by decide, by decide, by decide, by decide, fun _ => ⟨rfl, rfl⟩⟩

/-!
Claim C5.
-/

/-- C5 counterexample: with haiku_model containing the identifier sonnet,
normalizing the already-normalized claude-3-haiku remaps it again, so
normalize_model_name is not idempotent for every settings object. -/
theorem c5_counterexample :
    ¬ (normalize_model_name
        (normalize_model_name "claude-3-haiku" ⟨"my-sonnet-model", "X", "", "D"⟩)
        ⟨"my-sonnet-model", "X", "", "D"⟩
      = normalize_model_name "claude-3-haiku" ⟨"my-sonnet-model", "X", "", "D"⟩) := by
  decide

/-- C5 amended: normalize_model_name is idempotent provided no configured
target name (haiku_model, sonnet_model, opus_model, model_name) itself
contains a Claude identifier after provider-prefix stripping. -/
theorem c5_normalize_idempotent (m : String) (s : Settings)
    (h1 : is_claude_model (strip_provider_prefixes s.haiku_model) = false)
    (h2 : is_claude_model (strip_provider_prefixes s.sonnet_model) = false)
    (h3 : is_claude_model (strip_provider_prefixes s.opus_model) = false)
    (h4 : is_claude_model (strip_provider_prefixes s.model_name) = false) :
    normalize_model_name (normalize_model_name m s) s = normalize_model_name m s := by
  rcases normalize_mem_targets m s with h | h | h | h | h <;> rw [h]
  · exact h
  · exact normalize_of_not_claude _ _ h1
  · exact normalize_of_not_claude _ _ h2
  · exact normalize_of_not_claude _ _ h3
  · exact normalize_of_not_claude _ _ h4

/-- C5 witness: the idempotence theorem applied at concrete settings
whose targets contain no Claude identifier. -/
theorem c5_witness :
    normalize_model_name
        (normalize_model_name "anthropic/claude-3-haiku" ⟨"H", "S", "O", "D"⟩)
        ⟨"H", "S", "O", "D"⟩
      = normalize_model_name "anthropic/claude-3-haiku" ⟨"H", "S", "O", "D"⟩ :=
  c5_normalize_idempotent "anthropic/claude-3-haiku" ⟨"H", "S", "O", "D"⟩
    (by decide) (by decide) (by decide) (by decide)

/-!
Claim C9.
-/

/-- C9 counterexample: normalize_model_name leaves openai/gpt-3.5-turbo
unchanged, so it does not strip the provider prefix from a non-Claude
model name (the repository test suite asserts the same behaviour). -/
theorem c9_counterexample :
    normalize_model_name "openai/gpt-3.5-turbo" ⟨"", "", "", "target"⟩ ≠ "gpt-3.5-turbo" ∧
    normalize_model_name "openai/gpt-3.5-turbo" ⟨"", "", "", "target"⟩
      = "openai/gpt-3.5-turbo" := by
  exact ⟨by decide, by decide⟩

/-- C9 amended: when the prefix-stripped remainder contains no Claude
identifier, normalize_model_name returns the input unchanged, provider
prefix included; the stripped form is used only to detect Claude models. -/
theorem c9_nonclaude_unchanged (m : String) (s : Settings)
    (h : is_claude_model (strip_provider_prefixes m) = false) :
    normalize_model_name m s = m :=
  normalize_of_not_claude m s h

/-- C9 witness: the amended theorem applied at openai/gpt-3.5-turbo. -/
theorem c9_witness :
    normalize_model_name "openai/gpt-3.5-turbo" ⟨"", "", "", "target"⟩
      = "openai/gpt-3.5-turbo" :=
  c9_nonclaude_unchanged "openai/gpt-3.5-turbo" ⟨"", "", "", "target"⟩ (by decide)

/-!
Claim C8.
-/

theorem append_ne_empty_of_left (a b : String) (h : a.data ≠ []) : a ++ b ≠ "" := by
  intro hc
  have h2 := congrArg String.data hc
  simp only [String.data_append] at h2
  rcases List.append_eq_nil.mp h2 with ⟨ha, _⟩
  exact h ha

theorem append3_ne_empty (a b c : String) (h : a.data ≠ []) : a ++ b ++ c ≠ "" := by
  apply append_ne_empty_of_left
  simp only [String.data_append]
  intro hc
  rcases List.append_eq_nil.mp hc with ⟨h1, _⟩
  exact h h1

/-- C8 counterexample: an exception matching none of the recognised types
whose string representation is empty yields the unexpected-failure
default, not the string Provider request failed. -/
theorem c8_counterexample :
    getUserFacingErrorMessage { kind := ExcKind.other, strRep := "" } none
      ≠ "Provider request failed." := by
  decide

/-- C8 amended: get_user_facing_error_message always returns a nonempty
string, and for an empty-after-stripping representation with no
recognised type the default is Provider request failed unexpectedly
(Provider request failed is the ProviderError branch instead). -/
theorem c8_error_message_nonempty (e : Exc) (t : Option Nat) :
    getUserFacingErrorMessage e t ≠ "" ∧
      (pyStripStr e.strRep = "" → e.kind = ExcKind.other →
        getUserFacingErrorMessage e t = "Provider request failed unexpectedly.") := by
  obtain ⟨k, r⟩ := e
  constructor
  · unfold getUserFacingErrorMessage
    split
    · assumption
    · dsimp only
      cases k with
      | httpxReadTimeout =>
        cases t with
        | some v => exact append3_ne_empty _ _ _ (by decide)
        | none => decide
      | timeoutError =>
        cases t with
        | some v => exact append3_ne_empty _ _ _ (by decide)
        | none => decide
      | apiError sc =>
        dsimp only
        by_cases hs : sc = 502 ∨ sc = 503 ∨ sc = 504
        · rw [if_pos hs]
          decide
        · rw [if_neg hs]
          decide
      | httpxConnectTimeout => dsimp only; decide
      | rateLimit => dsimp only; decide
      | authentication => dsimp only; decide
      | invalidRequest => dsimp only; decide
      | overloaded => dsimp only; decide
      | providerError => dsimp only; decide
      | other => dsimp only; decide
  · intro hs hk
    unfold getUserFacingErrorMessage
    simp only at hk
    rw [hk]
    simp only at hs
    rw [hs]
    simp

/-- C8 witness: the amended theorem applied at a whitespace-only
unrecognised exception. -/
theorem c8_witness :
    getUserFacingErrorMessage { kind := ExcKind.other, strRep := " " } none ≠ "" ∧
    getUserFacingErrorMessage { kind := ExcKind.other, strRep := " " } none
      = "Provider request failed unexpectedly." :=
  ⟨(c8_error_message_nonempty { kind := ExcKind.other, strRep := " " } none).1,
   (c8_error_message_nonempty { kind := ExcKind.other, strRep := " " } none).2
     (by decide) rfl⟩

/-!
Claim C3.
-/

/-- C3: evaluating the standalone /clear path. The persistent store is
cleared, but the command then raises AttributeError at the assignment
handler.tree_queue = TreeQueueManager(...), because tree_queue is a
property with a getter only; the in-memory manager is never replaced. -/
theorem c3_global_clear_raises :
    handleClearGlobal =
      ({ tasksStopped := true, messagesDeleted := true, storeCleared := true,
         treeQueueReplaced := false }, some PyExc.attributeError) := rfl

/-!
Claim C2.
-/

/-- C2: evaluating feed on the control token split as two chunks: the
first chunk is an incomplete token starting at buffer position zero, and
both halves are emitted as passthrough text, so the concatenated
passthrough contains the complete split control token. The hold-back
logic is defeated because the empty safe prefix is falsy in Python. -/
theorem c2_sentinel_leak :
    (feedMany (HTPState.init []) ["<|a".data, "|>".data]).2
      = [("<|a".data, []), ("|>".data, [])] ∧
    containsList ("<|a|>".data) ("<|a".data ++ "|>".data) = true :=
  ⟨rfl, rfl⟩

/-!
Claim C6.
-/

theorem pyStartsWith_self (s : String) : pyStartsWith s s = true := by
  simp [pyStartsWith, List.isPrefixOf_iff_prefix]

theorem pyStartsWith_any_empty (s : String) : pyStartsWith s "" = true := by
  simp [pyStartsWith, List.isPrefixOf_iff_prefix]

theorem data_ne_nil_of_ne_empty {s : String} (h : s ≠ "") : s.data ≠ [] := by
  intro hd
  apply h
  cases s
  simp_all

theorem pyStartsWith_empty_left {s : String} (h : s ≠ "") : pyStartsWith "" s = false := by
  unfold pyStartsWith
  cases hd : s.data with
  | nil => exact absurd hd (data_ne_nil_of_ne_empty h)
  | cons c l => rfl

theorem storedToolName_inv {m : ContentBlockManager} {i : Nat} {x : String}
    (h : storedToolName m i = some x) :
    ∃ st, getAssoc m.tool_states i = some st ∧ st.name = x := by
  unfold storedToolName at h
  cases hg : getAssoc m.tool_states i with
  | none => rw [hg] at h; simp at h
  | some st =>
    rw [hg] at h
    simp at h
    exact ⟨st, rfl, h⟩

theorem stored_register_existing (m : ContentBlockManager) (i : Nat) (n : String)
    (st : ToolCallState) (h : getAssoc m.tool_states i = some st) :
    storedToolName (register_tool_name m i n) i =
      some (if st.name = "" || pyStartsWith n st.name then n
            else if !(pyStartsWith st.name n) then st.name ++ n else st.name) := by
  unfold register_tool_name
  rw [h]
  unfold storedToolName
  dsimp only
  rw [getAssoc_setAssoc_self]
  rfl

theorem stored_register_fresh (m : ContentBlockManager) (i : Nat) (n : String)
    (h : getAssoc m.tool_states i = none) :
    storedToolName (register_tool_name m i n) i = some n := by
  unfold register_tool_name
  rw [h]
  unfold storedToolName
  dsimp only
  rw [getAssoc_setAssoc_self]
  rfl

theorem register_step_concat (m : ContentBlockManager) (i : Nat) (acc f : String)
    (st : ToolCallState) (h : getAssoc m.tool_states i = some st) (hn : st.name = acc)
    (hok : fragStepOk acc f = true) :
    storedToolName (register_tool_name m i f) i = some (acc ++ f) := by
  have hstep := stored_register_existing m i f st h
  rw [hn] at hstep
  rw [hstep]
  congr 1
  unfold fragStepOk at hok
  rcases Bool.or_eq_true_iff.mp hok with hab | hboth
  · rcases Bool.or_eq_true_iff.mp hab with hacc | hf
    · have hacc' : acc = "" := of_decide_eq_true hacc
      subst hacc'
      simp [pyStartsWith_any_empty]
    · have hf' : f = "" := of_decide_eq_true hf
      subst hf'
      by_cases hacc : acc = ""
      · subst hacc
        simp
      · rw [if_neg, if_neg]
        · simp
        · simp [pyStartsWith_any_empty]
        · simp [hacc, pyStartsWith_empty_left hacc]
  · rcases Bool.and_eq_true_iff.mp hboth with ⟨hpf, hpp⟩
    have hpf' : pyStartsWith f acc = false := by simpa using hpf
    have hpp' : pyStartsWith acc f = false := by simpa using hpp
    have hacc : acc ≠ "" := by
      intro hacc
      subst hacc
      rw [pyStartsWith_any_empty] at hpf'
      exact absurd hpf' (by decide)
    rw [if_neg, if_pos]
    · simp [hpp']
    · simp [hacc, hpf']

theorem registerFold_keep (i : Nat) (n : String) :
    ∀ (k : Nat) (m : ContentBlockManager) (st : ToolCallState),
      getAssoc m.tool_states i = some st → st.name = n →
      storedToolName
        ((List.replicate k n).foldl (fun m x => register_tool_name m i x) m) i = some n := by
  intro k
  induction k with
  | zero =>
    intro m st h hn
    simp [storedToolName, h, hn]
  | succ k ih =>
    intro m st h hn
    rw [List.replicate_succ, List.foldl_cons]
    have hstep := stored_register_existing m i n st h
    rw [hn, pyStartsWith_self] at hstep
    simp only [Bool.or_true, if_true] at hstep
    obtain ⟨st', hget', hname'⟩ := storedToolName_inv hstep
    exact ih _ st' hget' hname'

theorem registerFold_concat (i : Nat) :
    ∀ (fs : List String) (acc : String) (m : ContentBlockManager) (st : ToolCallState),
      getAssoc m.tool_states i = some st → st.name = acc → fragChainOk acc fs = true →
      storedToolName (fs.foldl (fun m x => register_tool_name m i x) m) i
        = some (acc ++ strConcat fs) := by
  intro fs
  induction fs with
  | nil =>
    intro acc m st h hn _
    simp [storedToolName, h, hn, strConcat]
  | cons f fs ih =>
    intro acc m st h hn hchain
    rw [List.foldl_cons]
    have hconj := Bool.and_eq_true_iff.mp hchain
    have hstep := register_step_concat m i acc f st h hn hconj.1
    obtain ⟨st', hget', hname'⟩ := storedToolName_inv hstep
    have := ih (acc ++ f) _ st' hget' hname' hconj.2
    rw [this]
    simp [strConcat, String.append_assoc]

/-- C6 counterexample: the name fragments Re then Re produce the stored
name Re, not ReRe: register_tool_name treats a fragment equal to a prefix
of the accumulated name as a full-name resend. -/
theorem c6_counterexample :
    storedToolName (registerMany 0 ["Re", "Re"]) 0 = some "Re" ∧
    storedToolName (registerMany 0 ["Re", "Re"]) 0 ≠ some "ReRe" := by
  constructor
  · rfl
  · decide

/-- C6 amended: (a) when the full name is re-sent on every chunk the
stored name equals it after any number of calls; (b) when the name
arrives as fragments, the stored name equals their concatenation
provided each later fragment and the accumulated name are not prefixes
of one another (a fragment extending the accumulated name, or equal to a
prefix of it, is treated as a resend instead; empty names and fragments
are fine). -/
theorem c6_register_tool_name (i : Nat) (n f : String) (k : Nat) (fs : List String)
    (hchain : fragChainOk f fs = true) :
    storedToolName (registerMany i (List.replicate (k + 1) n)) i = some n ∧
    storedToolName (registerMany i (f :: fs)) i = some (f ++ strConcat fs) := by
  constructor
  · unfold registerMany
    rw [List.replicate_succ, List.foldl_cons]
    have h0 : getAssoc (emptyManager).tool_states i = none := rfl
    have hstep := stored_register_fresh emptyManager i n h0
    obtain ⟨st', hget', hname'⟩ := storedToolName_inv hstep
    exact registerFold_keep i n k _ st' hget' hname'
  · unfold registerMany
    rw [List.foldl_cons]
    have h0 : getAssoc (emptyManager).tool_states i = none := rfl
    have hstep := stored_register_fresh emptyManager i f h0
    obtain ⟨st', hget', hname'⟩ := storedToolName_inv hstep
    exact registerFold_concat i fs f _ st' hget' hname' hchain

/-- C6 witness: the amended theorem applied at the full-name resends
Grep, Grep, Grep and at the fragment sequence Gr then ep. -/
theorem c6_witness :
    storedToolName (registerMany 0 (List.replicate 3 "Grep")) 0 = some "Grep" ∧
    storedToolName (registerMany 0 ["Gr", "ep"]) 0 = some ("Gr" ++ "ep") :=
  ⟨(c6_register_tool_name 0 "Grep" "Gr" 2 ["ep"] (by decide)).1,
   (c6_register_tool_name 0 "Grep" "Gr" 2 ["ep"] (by decide)).2⟩

/-!
Claim C4.
-/

theorem buffer_task_args_pending (m : ContentBlockManager) (i : Nat) (a : String)
    (st : ToolCallState) (h : getAssoc m.tool_states i = some st)
    (he : st.task_args_emitted = false)
    (hp : jsonLoads (st.task_arg_buffer ++ a) = none) :
    buffer_task_args m i a =
      ({ m with tool_states :=
          setAssoc m.tool_states i { st with task_arg_buffer := st.task_arg_buffer ++ a } },
       TaskArgsResult.pending) := by
  unfold buffer_task_args
  rw [h]
  simp [he, hp]

theorem buffer_task_args_emit (m : ContentBlockManager) (i : Nat) (a : String)
    (st : ToolCallState) (fields : List (String × Json))
    (h : getAssoc m.tool_states i = some st) (he : st.task_args_emitted = false)
    (hp : jsonLoads (st.task_arg_buffer ++ a) = some (Json.obj fields)) :
    (buffer_task_args m i a).2 = TaskArgsResult.emitted (patchRunInBackground fields) ∧
    getAssoc (buffer_task_args m i a).1.tool_states i =
      some { st with task_args_emitted := true, task_arg_buffer := "" } := by
  unfold buffer_task_args
  rw [h]
  simp [he, hp, getAssoc_setAssoc_self]

theorem buffer_task_args_latch (m : ContentBlockManager) (i : Nat) (a : String)
    (st : ToolCallState) (h : getAssoc m.tool_states i = some st)
    (he : st.task_args_emitted = true) :
    buffer_task_args m i a = (m, TaskArgsResult.pending) := by
  unfold buffer_task_args
  rw [h]
  simp [he]

theorem patch_lookup (fields : List (String × Json)) :
    getAssoc (patchRunInBackground fields) "run_in_background" = some (Json.bool false) := by
  unfold patchRunInBackground
  cases hg : getAssoc fields "run_in_background" with
  | none => rw [getAssoc_setAssoc_self]
  | some v =>
    cases v with
    | null => rw [getAssoc_setAssoc_self]
    | bool b =>
      cases b with
      | false => exact hg
      | true => rw [getAssoc_setAssoc_self]
    | num n => rw [getAssoc_setAssoc_self]
    | str s => rw [getAssoc_setAssoc_self]
    | arr xs => rw [getAssoc_setAssoc_self]
    | obj fs => rw [getAssoc_setAssoc_self]

theorem taskArgs_run_aux (i : Nat) (fields : List (String × Json)) :
    ∀ (frs : List String) (b : String) (m : ContentBlockManager) (st : ToolCallState),
      getAssoc m.tool_states i = some st → st.task_args_emitted = false →
      st.task_arg_buffer = b → frs ≠ [] →
      (∀ k, k + 1 < frs.length → jsonLoads (b ++ strConcat (frs.take (k + 1))) = none) →
      jsonLoads (b ++ strConcat frs) = some (Json.obj fields) →
      (bufferTaskArgsRun m i frs).2 =
        List.replicate (frs.length - 1) TaskArgsResult.pending ++
          [TaskArgsResult.emitted (patchRunInBackground fields)] ∧
      ∃ st', getAssoc (bufferTaskArgsRun m i frs).1.tool_states i = some st' ∧
        st'.task_args_emitted = true := by
  intro frs
  induction frs with
  | nil => intro b m st _ _ _ hne _ _; exact absurd rfl hne
  | cons f rest ih =>
    intro b m st h he hb hne hpre hall
    cases rest with
    | nil =>
      have hp : jsonLoads (st.task_arg_buffer ++ f) = some (Json.obj fields) := by
        rw [hb]
        simpa [strConcat] using hall
      have hemit := buffer_task_args_emit m i f st fields h he hp
      have e1 : (bufferTaskArgsRun m i [f]).2 = [(buffer_task_args m i f).2] := rfl
      have e2 : (bufferTaskArgsRun m i [f]).1 = (buffer_task_args m i f).1 := rfl
      constructor
      · rw [e1, hemit.1]
        rfl
      · rw [e2]
        exact ⟨_, hemit.2, rfl⟩
    | cons f2 rest2 =>
      have hp0 : jsonLoads (st.task_arg_buffer ++ f) = none := by
        rw [hb]
        have h1 := hpre 0 (by simp)
        simpa [strConcat] using h1
      have hpend := buffer_task_args_pending m i f st h he hp0
      have hrec := ih (b ++ f)
        ({ m with tool_states :=
            setAssoc m.tool_states i { st with task_arg_buffer := st.task_arg_buffer ++ f } })
        { st with task_arg_buffer := st.task_arg_buffer ++ f }
        (getAssoc_setAssoc_self _ _ _) he (by rw [hb])
        (by simp)
        (fun k hk => by
          have h2 := hpre (k + 1) (by simpa using hk)
          rw [List.take_succ_cons] at h2
          simpa [strConcat, String.append_assoc] using h2)
        (by simpa [strConcat, String.append_assoc] using hall)
      have e1 : (bufferTaskArgsRun m i (f :: f2 :: rest2)).2 =
          (buffer_task_args m i f).2 ::
            (bufferTaskArgsRun (buffer_task_args m i f).1 i (f2 :: rest2)).2 := rfl
      have e2 : (bufferTaskArgsRun m i (f :: f2 :: rest2)).1 =
          (bufferTaskArgsRun (buffer_task_args m i f).1 i (f2 :: rest2)).1 := rfl
      constructor
      · rw [e1, hpend]
        dsimp only
        rw [hrec.1]
        simp [List.replicate_succ]
      · rw [e2, hpend]
        exact hrec.2

/-- C4: for a registered Task tool slot, argument fragments are buffered
and every call returns pending until the concatenation of the fragments
received so far parses as valid JSON; at that point exactly one call
returns the parsed object with run_in_background patched to false, the
patched object maps run_in_background to false, and every later call for
that slot returns pending again. -/
theorem c4_task_args_buffering (frs : List String) (fields : List (String × Json))
    (hne : frs ≠ [])
    (hpre : ∀ k, k + 1 < frs.length → jsonLoads (strConcat (frs.take (k + 1))) = none)
    (hall : jsonLoads (strConcat frs) = some (Json.obj fields)) :
    (bufferTaskArgsRun (register_tool_name emptyManager 0 "Task") 0 frs).2 =
      List.replicate (frs.length - 1) TaskArgsResult.pending ++
        [TaskArgsResult.emitted (patchRunInBackground fields)] ∧
    (∀ extra : String,
      (buffer_task_args
        (bufferTaskArgsRun (register_tool_name emptyManager 0 "Task") 0 frs).1 0 extra).2
        = TaskArgsResult.pending) ∧
    getAssoc (patchRunInBackground fields) "run_in_background"
      = some (Json.bool false) := by
  have h0 : getAssoc (register_tool_name emptyManager 0 "Task").tool_states 0
      = some (freshToolCallState "Task") := rfl
  have haux := taskArgs_run_aux 0 fields frs "" (register_tool_name emptyManager 0 "Task")
    (freshToolCallState "Task") h0 rfl rfl hne
    (fun k hk => by simpa using hpre k hk)
    (by simpa using hall)
  refine ⟨haux.1, ?_, patch_lookup fields⟩
  intro extra
  obtain ⟨st', hget', hem'⟩ := haux.2
  rw [buffer_task_args_latch _ 0 extra st' hget' hem']

/-- C4 witness: the buffering theorem applied at the two fragments of a
small Task argument object, whose first fragment is not valid JSON. -/
theorem c4_witness :
    (bufferTaskArgsRun (register_tool_name emptyManager 0 "Task") 0
        ["\x7b\"prompt\": \"x\"", "\x7d"]).2 =
      [TaskArgsResult.pending,
       TaskArgsResult.emitted (patchRunInBackground [("prompt", Json.str "x")])] := by
  have h := c4_task_args_buffering ["\x7b\"prompt\": \"x\"", "\x7d"]
    [("prompt", Json.str "x")]
    (by simp)
    (fun k hk => by
      have hk2 : k + 1 < 2 := by simpa using hk
      have hk0 : k = 0 := by omega
      subst hk0
      rfl)
    (by rfl)
  exact h.1

/-!
Claim C7.
-/

theorem feedMany_nil (st : HTPState) : feedMany st [] = (st, []) := rfl

theorem feedMany_cons (st : HTPState) (c : Chars) (rest : List Chars) :
    feedMany st (c :: rest) =
      ((feedMany (feed st c).1 rest).1,
       ((feed st c).2.1, (feed st c).2.2) :: (feedMany (feed st c).1 rest).2) := rfl

/-- C7: feeding the four scenario chunks to a fresh parser whose uuid4
supply starts with u yields passthrough Thinking… from the first feed,
nothing from the middle feeds, then the trailing newline-OK text together
with exactly one Grep tool whose input maps pattern to foo and whose id
is toolu_heuristic_ followed by the first eight characters of u; when u
is a uuid4 hex string those eight characters are eight lowercase
hexadecimal digits. -/
theorem c7_heuristic_scenario (u : Chars)
    (hlen : (u.take 8).length = 8)
    (hhex : ∀ c ∈ u.take 8, isLowerHexDigit c = true) :
    (feedMany (HTPState.init [u]) ["Thinking… ".data, "●  <function=Grep>".data,
        "<parameter=pattern>foo".data, "</parameter>\nOK".data]).2 =
      [("Thinking… ".data, []), ([], []), ([], []),
       ("\nOK".data,
        [{ id := toolIdBase ++ u.take 8, name := "Grep".data,
           input := [("pattern".data, "foo".data)] }])] ∧
    (∃ h8, toolIdBase ++ u.take 8 = toolIdBase ++ h8 ∧ h8.length = 8 ∧
      ∀ c ∈ h8, isLowerHexDigit c = true) := by
  refine ⟨?_, ⟨u.take 8, rfl, hlen, hhex⟩⟩
  have h1 : feed (HTPState.init [u]) "Thinking… ".data =
      (HTPState.init [u], "Thinking… ".data, []) := rfl
  have h2 : feed (HTPState.init [u]) "●  <function=Grep>".data =
      ({ state := PState.parsingParameters, buffer := [],
         currentToolId := toolIdBase ++ u.take 8, currentFunctionName := "Grep".data,
         currentParameters := [], uuidSupply := [] }, [], []) := rfl
  have h3 : feed
      { state := PState.parsingParameters, buffer := [],
        currentToolId := toolIdBase ++ u.take 8, currentFunctionName := "Grep".data,
        currentParameters := [], uuidSupply := ([] : List Chars) }
      "<parameter=pattern>foo".data =
      ({ state := PState.parsingParameters, buffer := "<parameter=pattern>foo".data,
         currentToolId := toolIdBase ++ u.take 8, currentFunctionName := "Grep".data,
         currentParameters := [], uuidSupply := [] }, [], []) := rfl
  have h4 : feed
      { state := PState.parsingParameters, buffer := "<parameter=pattern>foo".data,
        currentToolId := toolIdBase ++ u.take 8, currentFunctionName := "Grep".data,
        currentParameters := [], uuidSupply := ([] : List Chars) }
      "</parameter>\nOK".data =
      ({ state := PState.text, buffer := [],
         currentToolId := toolIdBase ++ u.take 8, currentFunctionName := "Grep".data,
         currentParameters := [("pattern".data, "foo".data)], uuidSupply := [] },
       "\nOK".data,
       [{ id := toolIdBase ++ u.take 8, name := "Grep".data,
          input := [("pattern".data, "foo".data)] }]) := rfl
  rw [feedMany_cons, h1]
  dsimp only
  rw [feedMany_cons, h2]
  dsimp only
  rw [feedMany_cons, h3]
  dsimp only
  rw [feedMany_cons, h4]
  dsimp only
  rw [feedMany_nil]

/-- C7 witness: the scenario theorem applied at a concrete uuid4 hex
value. -/
theorem c7_witness :
    (feedMany (HTPState.init ["0123456789abcdef0123456789abcdef".data])
        ["Thinking… ".data, "●  <function=Grep>".data,
         "<parameter=pattern>foo".data, "</parameter>\nOK".data]).2 =
      [("Thinking… ".data, []), ([], []), ([], []),
       ("\nOK".data,
        [{ id := toolIdBase ++ ("0123456789abcdef0123456789abcdef".data).take 8,
           name := "Grep".data,
           input := [("pattern".data, "foo".data)] }])] :=
  (c7_heuristic_scenario "0123456789abcdef0123456789abcdef".data
    (by decide) (by decide)).1

/-!
Claim C10. The stream of lemmas below establishes that a run of feed
calls which ends in the MATCHING_FUNCTION state without ever emitting a
tool and without the buffer outgrowing 100 characters never passes the
bullet character through, so the held buffer (which starts with the
bullet) appears in no passthrough output, and flush returns no tools.
-/

theorem isPrefixOf_singleton (c a : Char) (rest : Chars) :
    (([c]).isPrefixOf (a :: rest)) = (c == a) := by
  simp [List.isPrefixOf]

theorem findSub_none_not_mem (c : Char) :
    ∀ l : Chars, findSub [c] l = none → c ∉ l := by
  intro l
  induction l with
  | nil => intro _; simp
  | cons a rest ih =>
    intro h
    unfold findSub at h
    rw [isPrefixOf_singleton] at h
    by_cases hca : c = a
    · rw [if_pos (by simp [hca])] at h
      simp at h
    · rw [if_neg (by simp [hca])] at h
      have h2 : findSub [c] rest = none := by
        cases hf : findSub [c] rest
        · rfl
        · rw [hf] at h; simp at h
      intro hm
      rcases List.mem_cons.mp hm with he | hm2
      · exact hca he
      · exact ih h2 hm2

theorem findSub_some_inv (c : Char) :
    ∀ (l : Chars) (i : Nat), findSub [c] l = some i →
      (l.drop i).head? = some c ∧ c ∉ l.take i := by
  intro l
  induction l with
  | nil => intro i h; unfold findSub at h; simp at h
  | cons a rest ih =>
    intro i h
    unfold findSub at h
    rw [isPrefixOf_singleton] at h
    by_cases hca : c = a
    · rw [if_pos (by simp [hca])] at h
      have hi : i = 0 := by simpa using h.symm
      subst hi
      subst hca
      simp
    · rw [if_neg (by simp [hca])] at h
      cases hf : findSub [c] rest with
      | none => rw [hf] at h; simp at h
      | some j =>
        rw [hf] at h
        simp at h
        subst h
        obtain ⟨h1, h2⟩ := ih j hf
        refine ⟨by simpa using h1, ?_⟩
        intro hm
        rw [List.take_succ_cons] at hm
        rcases List.mem_cons.mp hm with he | hm2
        · exact hca he
        · exact h2 hm2

theorem splitIncompleteTail_shape (b : Chars) :
    ∃ i, splitIncompleteTail b = (b.take i, b.drop i) := by
  unfold splitIncompleteTail
  split
  · exact ⟨0, by simp⟩
  · rename_i s hs
    split
    · exact ⟨0, by simp⟩
    · exact ⟨s, rfl⟩

theorem ctScanBody_length :
    ∀ (f : Nat) (l r : Chars), ctScanBody f l = some r → r.length ≤ l.length := by
  intro f
  induction f with
  | zero =>
    intro l r h
    unfold ctScanBody at h
    split at h
    · cases h
      simp only [List.length_cons]
      omega
    · simp at h
    · simp at h
    · omega
  | succ f ih =>
    intro l r h
    unfold ctScanBody at h
    split at h
    · cases h
      simp only [List.length_cons]
      omega
    · omega
    · simp at h
    · rename_i fuel' c rest hno heq
      simp only [List.length_cons]
      simp at h
      have hf : fuel' = f := by omega
      have hrec := ih rest r (by rw [← hf]; exact h.2)
      omega


theorem ctMatch_length (l r : Chars) (h : ctMatch l = some r) : r.length ≤ l.length := by
  cases l with
  | nil => simp [ctMatch] at h
  | cons c rest =>
    unfold ctMatch at h
    dsimp only at h
    split at h
    · simp at h
    · have := ctScanBody_length 79 rest r h
      simp only [List.length_cons]
      omega

theorem stripCTAux_succ (f : Nat) (l : Chars) :
    stripCTAux (f + 1) l =
      match l with
      | [] => []
      | c :: rest =>
        if c = '<' ∧ rest.head? = some '|' then
          match ctMatch rest.tail with
          | some rest' => stripCTAux f rest'
          | none => c :: stripCTAux f rest
        else c :: stripCTAux f rest := rfl

theorem stripCTAux_length :
    ∀ (f : Nat) (l : Chars), (stripCTAux f l).length ≤ l.length := by
  intro f
  induction f with
  | zero => intro l; simp [stripCTAux]
  | succ f ih =>
    intro l
    rw [stripCTAux_succ]
    cases l with
    | nil => simp
    | cons c rest =>
      dsimp only
      by_cases hc : c = '<' ∧ rest.head? = some '|'
      · rw [if_pos hc]
        cases hm : ctMatch rest.tail with
        | some rest' =>
          have h1 := ctMatch_length rest.tail rest' hm
          have h2 := ih rest'
          have h3 : rest.tail.length ≤ rest.length := by
            cases rest <;> simp
          simp only [List.length_cons]
          omega
        | none =>
          have h2 := ih rest
          simp only [List.length_cons]
          omega
      · rw [if_neg hc]
        have h2 := ih rest
        simp only [List.length_cons]
        omega

theorem stripControlTokens_length (l : Chars) :
    (stripControlTokens l).length ≤ l.length :=
  stripCTAux_length l.length l

theorem stripCTAux_cons_ne (f : Nat) (c : Char) (l : Chars) (h : c ≠ '<') :
    stripCTAux (f + 1) (c :: l) = c :: stripCTAux f l := by
  rw [stripCTAux_succ]
  dsimp only
  rw [if_neg (fun hc => h hc.1)]

theorem stripControlTokens_head_dot (l : Chars) (h : l.head? = some '●') :
    (stripControlTokens l).head? = some '●' := by
  cases l with
  | nil => simp at h
  | cons c rest =>
    have hc : c = '●' := by simpa using h
    subst hc
    unfold stripControlTokens
    rw [show ('●' :: rest).length = rest.length + 1 from rfl,
        stripCTAux_cons_ne rest.length '●' rest (by decide)]
    rfl

theorem feedLoop_tools_mono :
    ∀ (fuel : Nat) (st : HTPState) (out : Chars) (tools : List ToolUse),
      ∃ ex, (feedLoop fuel st out tools).2.2 = tools ++ ex := by
  intro fuel
  induction fuel with
  | zero => intro st out tools; exact ⟨[], by simp [feedLoop]⟩
  | succ fuel ih =>
    intro st out tools
    unfold feedLoop
    split
    · exact ⟨[], by simp⟩
    · split
      · exact ⟨[], by simp⟩
      · rename_i st2 out2 heq
        exact ih st2 out2 tools
      · rename_i st2 out2 heq
        split
        · exact ⟨[], by simp⟩
        · rename_i st3 out3 tool heq2
          obtain ⟨ex, hex⟩ := ih st3 out3 (tools ++ [tool])
          exact ⟨tool :: ex, by simp [hex]⟩

theorem stageText_skip (st : HTPState) (out : Chars)
    (h : st.state ≠ PState.text) : stageText st out = Sum.inr (st, out) := by
  unfold stageText
  rw [if_neg h]

theorem stageMatching_skip (st : HTPState) (out : Chars)
    (h : st.state ≠ PState.matchingFunction) :
    stageMatching st out = MatchingRes.toParsing st out := by
  unfold stageMatching
  rw [if_neg h]

theorem stageParsing_brk_state (st : HTPState) (out : Chars) (st3 : HTPState)
    (out3 : Chars) (h : stageParsing st out = ParsingRes.brk st3 out3) :
    st3.state = st.state := by
  unfold stageParsing at h
  dsimp only at h
  split at h
  · simp at h
  · split at h
    · split at h
      · cases h
        rfl
      · simp at h
    · cases h
      rfl

theorem feedLoop_parsing_sticky :
    ∀ (fuel : Nat) (st : HTPState) (out : Chars) (tools : List ToolUse),
      st.state = PState.parsingParameters →
      (feedLoop fuel st out tools).1.state = PState.parsingParameters ∨
        (feedLoop fuel st out tools).2.2 ≠ tools := by
  intro fuel
  induction fuel with
  | zero => intro st out tools h; exact Or.inl (by simp [feedLoop, h])
  | succ fuel ih =>
    intro st out tools h
    unfold feedLoop
    rw [stageText_skip st out (by rw [h]; intro hc; cases hc)]
    dsimp only
    rw [stageMatching_skip st out (by rw [h]; intro hc; cases hc)]
    dsimp only
    cases hP : stageParsing st out with
    | brk st3 out3 =>
      dsimp only
      exact Or.inl ((stageParsing_brk_state st out st3 out3 hP).trans h)
    | fin st3 out3 tool =>
      dsimp only
      obtain ⟨ex, hex⟩ := feedLoop_tools_mono fuel st3 out3 (tools ++ [tool])
      right
      simp only [hex]
      intro hc
      have := congrArg List.length hc
      simp at this

theorem feed_parsing_sticky (st : HTPState) (c : Chars)
    (h : st.state = PState.parsingParameters) :
    (feed st c).1.state = PState.parsingParameters ∨ (feed st c).2.2 ≠ [] := by
  unfold feed
  exact feedLoop_parsing_sticky _ _ [] [] (by simpa using h)

theorem feedMany_parsing_sticky :
    ∀ (cs : List Chars) (st : HTPState),
      st.state = PState.parsingParameters →
      (∀ p ∈ (feedMany st cs).2, p.2 = ([] : List ToolUse)) →
      (feedMany st cs).1.state = PState.parsingParameters := by
  intro cs
  induction cs with
  | nil => intro st h _; simpa [feedMany] using h
  | cons c rest ih =>
    intro st h htools
    rw [feedMany_cons] at htools ⊢
    rcases feed_parsing_sticky st c h with hs | hne
    · exact ih _ hs (fun p hp => htools p (by simp [hp]))
    · exact absurd (htools ((feed st c).2.1, (feed st c).2.2) (by simp)) hne

theorem feedLoop_succ (fuel : Nat) (st : HTPState) (out : Chars) (tools : List ToolUse) :
    feedLoop (fuel + 1) st out tools =
      match stageText st out with
      | Sum.inl (st1, out1) => (st1, out1, tools)
      | Sum.inr (st1, out1) =>
        match stageMatching st1 out1 with
        | MatchingRes.brk st2 out2 => (st2, out2, tools)
        | MatchingRes.loopText st2 out2 => feedLoop fuel st2 out2 tools
        | MatchingRes.toParsing st2 out2 =>
          match stageParsing st2 out2 with
          | ParsingRes.brk st3 out3 => (st3, out3, tools)
          | ParsingRes.fin st3 out3 tool => feedLoop fuel st3 out3 (tools ++ [tool]) := rfl

theorem stageText_inl_clean (st : HTPState) (out : Chars) (st1 : HTPState) (out1 : Chars)
    (h : stageText st out = Sum.inl (st1, out1)) :
    st.state = PState.text ∧ st1.state = PState.text ∧ '●' ∉ st.buffer ∧
    (∃ ex, out1 = out ++ ex ∧ (∀ x ∈ ex, x ∈ st.buffer)) ∧
    st1.buffer.length ≤ st.buffer.length := by
  unfold stageText at h
  by_cases hs : st.state = PState.text
  · rw [if_pos hs] at h
    cases hfind : findSub ('●' :: []) st.buffer with
    | some idx =>
      rw [hfind] at h
      simp at h
    | none =>
      rw [hfind] at h
      dsimp only at h
      obtain ⟨i, hsp⟩ := splitIncompleteTail_shape st.buffer
      rw [hsp] at h
      have hnm := findSub_none_not_mem '●' st.buffer hfind
      by_cases hne : st.buffer.take i ≠ []
      · rw [if_pos hne] at h
        simp only [Sum.inl.injEq, Prod.mk.injEq] at h
        obtain ⟨hh1, hh2⟩ := h
        subst hh1
        subst hh2
        exact ⟨hs, hs, hnm,
          ⟨st.buffer.take i, rfl, fun x hx => List.take_subset _ _ hx⟩,
          by simp [Nat.sub_le]⟩
      · rw [if_neg hne] at h
        simp only [Sum.inl.injEq, Prod.mk.injEq] at h
        obtain ⟨hh1, hh2⟩ := h
        subst hh1
        subst hh2
        exact ⟨hs, hs, hnm,
          ⟨st.buffer.drop i, rfl, fun x hx => List.drop_subset _ _ hx⟩, by simp⟩
  · rw [if_neg hs] at h
    simp at h

theorem stageText_inr_clean (st : HTPState) (out : Chars) (st1 : HTPState) (out1 : Chars)
    (h : stageText st out = Sum.inr (st1, out1)) :
    (st1 = st ∧ out1 = out ∧ st.state ≠ PState.text) ∨
    (st.state = PState.text ∧ st1.state = PState.matchingFunction ∧
     st1.buffer.head? = some '●' ∧ st1.buffer.length ≤ st.buffer.length ∧
     ∃ ex, out1 = out ++ ex ∧ '●' ∉ ex) := by
  unfold stageText at h
  by_cases hs : st.state = PState.text
  · rw [if_pos hs] at h
    cases hfind : findSub ('●' :: []) st.buffer with
    | none =>
      rw [hfind] at h
      dsimp only at h
      obtain ⟨i, hsp⟩ := splitIncompleteTail_shape st.buffer
      rw [hsp] at h
      split at h <;> simp at h
    | some idx =>
      rw [hfind] at h
      dsimp only at h
      simp only [Sum.inr.injEq, Prod.mk.injEq] at h
      obtain ⟨hh1, hh2⟩ := h
      subst hh1
      subst hh2
      obtain ⟨hhead, htake⟩ := findSub_some_inv '●' st.buffer idx hfind
      exact Or.inr ⟨hs, rfl, hhead, by simp [Nat.sub_le],
        ⟨st.buffer.take idx, rfl, htake⟩⟩
  · rw [if_neg hs] at h
    simp only [Sum.inr.injEq, Prod.mk.injEq] at h
    exact Or.inl ⟨h.1.symm, h.2.symm, hs⟩

theorem stageMatching_match_cases (st : HTPState) (out : Chars)
    (hs : st.state = PState.matchingFunction) :
    (∃ st2, stageMatching st out = MatchingRes.toParsing st2 out ∧
      st2.state = PState.parsingParameters) ∨
    (stageMatching st out = MatchingRes.brk st out ∧ st.buffer.length ≤ 100) ∨
    (100 < st.buffer.length ∧
      ∃ st2 out2, stageMatching st out = MatchingRes.loopText st2 out2) := by
  unfold stageMatching
  rw [if_pos hs]
  cases funcSearch st.buffer with
  | some gr =>
    obtain ⟨g, rest⟩ := gr
    dsimp only
    exact Or.inl ⟨_, rfl, rfl⟩
  | none =>
    dsimp only
    by_cases hlen : st.buffer.length > 100
    · rw [if_pos hlen]
      exact Or.inr (Or.inr ⟨hlen, _, _, rfl⟩)
    · rw [if_neg hlen]
      exact Or.inr (Or.inl ⟨rfl, by omega⟩)

theorem feedLoop_clean :
    ∀ (fuel : Nat) (st : HTPState) (out : Chars) (tools : List ToolUse),
      st.state ≠ PState.parsingParameters →
      (st.state = PState.matchingFunction → st.buffer.head? = some '●') →
      st.buffer.length ≤ 100 →
      (feedLoop fuel st out tools).2.2 = tools →
      (feedLoop fuel st out tools).1.state ≠ PState.parsingParameters →
      (∃ ex, (feedLoop fuel st out tools).2.1 = out ++ ex ∧ '●' ∉ ex) ∧
      ((feedLoop fuel st out tools).1.state = PState.matchingFunction →
        (feedLoop fuel st out tools).1.buffer.head? = some '●') ∧
      (feedLoop fuel st out tools).1.buffer.length ≤ st.buffer.length := by
  intro fuel
  induction fuel with
  | zero =>
    intro st out tools h1 h2 h3 h4 h5
    refine ⟨⟨[], by simp [feedLoop], by simp⟩, ?_, by simp [feedLoop]⟩
    intro hm
    simp only [feedLoop] at hm ⊢
    exact h2 hm
  | succ fuel ih =>
    intro st out tools h1 h2 h3 h4 h5
    rw [feedLoop_succ] at h4 h5 ⊢
    cases hT : stageText st out with
    | inl p =>
      obtain ⟨st1, out1⟩ := p
      rw [hT] at h4 h5
      dsimp only at h4 h5 ⊢
      obtain ⟨hstt, hst1, hnm, ⟨ex, hex, hexsub⟩, hlen⟩ :=
        stageText_inl_clean st out st1 out1 hT
      refine ⟨⟨ex, hex, fun hc => hnm (hexsub _ hc)⟩, ?_, hlen⟩
      intro hm
      rw [hst1] at hm
      cases hm
    | inr p =>
      obtain ⟨st1, out1⟩ := p
      rw [hT] at h4 h5
      dsimp only at h4 h5 ⊢
      have key : st1.state = PState.matchingFunction ∧ st1.buffer.head? = some '●' ∧
          st1.buffer.length ≤ st.buffer.length ∧
          ∃ ex0, out1 = out ++ ex0 ∧ '●' ∉ ex0 := by
        rcases stageText_inr_clean st out st1 out1 hT with
          ⟨he1, he2, hnt⟩ | ⟨hst, hm1, hhead1, hlen1, hexst⟩
        · have hsm : st.state = PState.matchingFunction := by
            cases hstate : st.state
            · exact absurd hstate hnt
            · rfl
            · exact absurd hstate h1
          refine ⟨?_, ?_, ?_, [], by simp [he2], by simp⟩
          · rw [he1]; exact hsm
          · rw [he1]; exact h2 hsm
          · simp [he1]
        · exact ⟨hm1, hhead1, hlen1, hexst⟩
      obtain ⟨hm1, hhead1, hlen1, ex0, hex0, hex0nm⟩ := key
      rcases stageMatching_match_cases st1 out1 hm1 with
        ⟨st2, hM, hp2⟩ | ⟨hM, hle⟩ | ⟨hgt, st2, out2, hM⟩
      · rw [hM] at h4 h5 ⊢
        dsimp only at h4 h5 ⊢
        cases hP : stageParsing st2 out1 with
        | brk st3 out3 =>
          rw [hP] at h4 h5
          dsimp only at h5
          exact absurd ((stageParsing_brk_state st2 out1 st3 out3 hP).trans hp2) h5
        | fin st3 out3 tool =>
          rw [hP] at h4
          dsimp only at h4
          obtain ⟨exm, hexm⟩ := feedLoop_tools_mono fuel st3 out3 (tools ++ [tool])
          rw [hexm] at h4
          exfalso
          have := congrArg List.length h4
          simp at this
      · rw [hM] at h4 h5 ⊢
        dsimp only at h4 h5 ⊢
        exact ⟨⟨ex0, hex0, hex0nm⟩, fun _ => hhead1, hlen1⟩
      · omega

theorem head_append_of_head {c : Char} {l : Chars} (m : Chars) (h : l.head? = some c) :
    (l ++ m).head? = some c := by
  cases l with
  | nil => simp at h
  | cons a rest => simpa using h

theorem feed_clean (st : HTPState) (chunk : Chars)
    (h1 : st.state ≠ PState.parsingParameters)
    (h2 : st.state = PState.matchingFunction → st.buffer.head? = some '●')
    (h3 : st.buffer.length + chunk.length ≤ 100)
    (h4 : (feed st chunk).2.2 = [])
    (h5 : (feed st chunk).1.state ≠ PState.parsingParameters) :
    '●' ∉ (feed st chunk).2.1 ∧
    ((feed st chunk).1.state = PState.matchingFunction →
      (feed st chunk).1.buffer.head? = some '●') ∧
    (feed st chunk).1.buffer.length ≤ st.buffer.length + chunk.length := by
  unfold feed at h4 h5 ⊢
  dsimp only at h4 h5 ⊢
  have hble : (stripControlTokens (st.buffer ++ chunk)).length
      ≤ st.buffer.length + chunk.length := by
    have h := stripControlTokens_length (st.buffer ++ chunk)
    simpa using h
  have hfl := feedLoop_clean (2 * (stripControlTokens (st.buffer ++ chunk)).length + 4)
    { st with buffer := stripControlTokens (st.buffer ++ chunk) } [] []
    h1
    (fun hm => stripControlTokens_head_dot _ (head_append_of_head chunk (h2 hm)))
    (le_trans hble h3) h4 h5
  obtain ⟨⟨ex, hex, hnm⟩, hminv, hlen⟩ := hfl
  refine ⟨?_, hminv, le_trans hlen hble⟩
  rw [hex]
  simpa using hnm

theorem feedMany_clean :
    ∀ (cs : List Chars) (st : HTPState),
      st.state ≠ PState.parsingParameters →
      (st.state = PState.matchingFunction → st.buffer.head? = some '●') →
      st.buffer.length + (cs.map List.length).sum ≤ 100 →
      (∀ p ∈ (feedMany st cs).2, p.2 = ([] : List ToolUse)) →
      (feedMany st cs).1.state = PState.matchingFunction →
      (∀ p ∈ (feedMany st cs).2, '●' ∉ p.1) ∧
      (feedMany st cs).1.buffer.head? = some '●' := by
  intro cs
  induction cs with
  | nil =>
    intro st h1 h2 h3 h4 h5
    rw [feedMany_nil] at h5 ⊢
    exact ⟨by simp, h2 h5⟩
  | cons c rest ih =>
    intro st h1 h2 h3 h4 h5
    rw [feedMany_cons] at h4 h5 ⊢
    have ht0 : (feed st c).2.2 = [] :=
      h4 ((feed st c).2.1, (feed st c).2.2) (by simp)
    have hs0 : (feed st c).1.state ≠ PState.parsingParameters := by
      intro hp
      have hstick := feedMany_parsing_sticky rest (feed st c).1 hp
        (fun p hp2 => h4 p (List.mem_cons_of_mem _ hp2))
      exact absurd (hstick.symm.trans h5) (by decide)
    have hsum : st.buffer.length + c.length ≤ 100 := by
      simp only [List.map_cons, List.sum_cons] at h3
      omega
    have hfc := feed_clean st c h1 h2 hsum ht0 hs0
    have hrest := ih (feed st c).1 hs0 hfc.2.1
      (by
        simp only [List.map_cons, List.sum_cons] at h3
        have hf2 := hfc.2.2
        omega)
      (fun p hp => h4 p (List.mem_cons_of_mem _ hp)) h5
    refine ⟨?_, hrest.2⟩
    intro p hp
    rcases List.mem_cons.mp hp with rfl | hp2
    · exact hfc.1
    · exact hrest.1 p hp2

theorem containsList_false_of_head {c : Char} {l : Chars} (hl : l.head? = some c) :
    ∀ h : Chars, c ∉ h → containsList l h = false := by
  intro h
  induction h with
  | nil =>
    intro _
    cases l with
    | nil => simp at hl
    | cons a rest => rfl
  | cons x rest ih =>
    intro hh
    have hx : c ≠ x := fun he => hh (he ▸ List.mem_cons_self x rest)
    have h1 : l.isPrefixOf (x :: rest) = false := by
      cases l with
      | nil => simp at hl
      | cons a la =>
        have ha : a = c := by simpa using hl
        subst ha
        simp [List.isPrefixOf, hx]
    have h2 : containsList l rest = false :=
      ih (fun hm => hh (List.mem_cons_of_mem _ hm))
    unfold containsList
    cases l with
    | nil => simp at hl
    | cons a la => rw [h1, h2]; rfl

end FreeClaudeCode
